import Mathlib

/-!
Verification of `assignment1/cs231n/classifiers/softmax.py`: the two softmax
loss implementations `softmax_loss_naive` and `softmax_loss_vectorized`.

Arrays are modelled as functions on `Fin`: the weight matrix `W : Fin D → Fin C → ℝ`
(shape `(D, C)`), the data matrix `X : Fin N → Fin D → ℝ` (shape `(N, D)`), and the
label vector `y : Fin N → ℤ` (NumPy labels are machine integers; Python/NumPy
indexing with a negative index wraps around, which `wrapIdx` models).  Real
arithmetic is exact (the floating-point tolerances of the spec become exact
equalities over `ℝ`).
-/

open Finset

noncomputable section

namespace Softmax

/-- Python/NumPy indexing of an array of length `C` with an integer index `c`:
a negative index wraps to `C + c`.  (NumPy raises `IndexError` outside
`[-C, C)`; inside that range this is exactly the wrap.) -/
def wrapIdx (C : ℕ) [NeZero C] (c : ℤ) : Fin C :=
  ⟨(c % (C : ℤ)).toNat, by
    have hC : (0 : ℤ) < (C : ℤ) := by exact_mod_cast Nat.pos_of_ne_zero (NeZero.ne C)
    have h1 : c % (C : ℤ) < (C : ℤ) := Int.emod_lt_of_pos c hC
    have h0 : (0 : ℤ) ≤ c % (C : ℤ) := Int.emod_nonneg c hC.ne'
    omega⟩

variable {N D C : ℕ}

/-- `score[i, j] = np.dot(X, W)[i, j]` (line `score = np.dot(X[i,:], W)` of the
naive code, `score = np.dot(X, W)` of the vectorized code). -/
def score (W : Fin D → Fin C → ℝ) (X : Fin N → Fin D → ℝ) (i : Fin N) (j : Fin C) : ℝ :=
  ∑ d, X i d * W d j

/-- `np.max` over row `i` of a score matrix (`np.max(score)` in the naive loop,
`np.max(score, axis=1, keepdims=True)` in the vectorized code). -/
def rowMax [NeZero C] (S : Fin N → Fin C → ℝ) (i : Fin N) : ℝ :=
  Finset.univ.sup' Finset.univ_nonempty (S i)

/-- The softmax probabilities both implementations compute: subtract the row
maximum, exponentiate, normalise (`s = exp_score / np.sum(exp_score)` in the
naive loop, `exp_score = np.exp(score) / np.sum(np.exp(score), axis=1,
keepdims=True)` in the vectorized code). -/
def probs [NeZero C] (S : Fin N → Fin C → ℝ) (i : Fin N) (j : Fin C) : ℝ :=
  Real.exp (S i j - rowMax S i) / ∑ k, Real.exp (S i k - rowMax S i)

/-- The regularization term `reg * np.sum(W * W)`. -/
def regTerm (reg : ℝ) (W : Fin D → Fin C → ℝ) : ℝ :=
  reg * ∑ d, ∑ j, W d j * W d j

/-- The loss of `softmax_loss_naive`, factored over an explicit score matrix
`S`: the loop accumulates `loss -= np.log(s[y[i]])` (a NumPy access, so the
label index wraps), then `loss /= num_train` and
`loss += reg * np.sum(W * W)`. -/
def naiveLossS [NeZero C] (W : Fin D → Fin C → ℝ) (S : Fin N → Fin C → ℝ)
    (y : Fin N → ℤ) (reg : ℝ) : ℝ :=
  (∑ i, -Real.log (probs S i (wrapIdx C (y i)))) / N + regTerm reg W

/-- The gradient of `softmax_loss_naive`, factored over an explicit score
matrix `S`: the inner loop over classes `j` adds `(s[j] - 1) * X[i,:]` to
column `j` when `j == y[i]` (an integer comparison, which never wraps) and
`s[j] * X[i,:]` otherwise; then `dW /= num_train` and `dW += reg * 2 * W`. -/
def naiveGradS [NeZero C] (W : Fin D → Fin C → ℝ) (X : Fin N → Fin D → ℝ)
    (S : Fin N → Fin C → ℝ) (y : Fin N → ℤ) (reg : ℝ) : Fin D → Fin C → ℝ :=
  fun d j =>
    (∑ i, if (j : ℤ) = y i then (probs S i j - 1) * X i d else probs S i j * X i d) / N
      + reg * 2 * W d j

/-- `softmax_loss_naive(W, X, y, reg)`: returns the pair `(loss, dW)`. -/
def softmax_loss_naive [NeZero C] (W : Fin D → Fin C → ℝ) (X : Fin N → Fin D → ℝ)
    (y : Fin N → ℤ) (reg : ℝ) : ℝ × (Fin D → Fin C → ℝ) :=
  (naiveLossS W (score W X) y reg, naiveGradS W X (score W X) y reg)

/-- The one-hot matrix of the vectorized code: `Y = np.zeros((num_train,
num_class)); Y[np.arange(num_train), y] = 1` — a NumPy fancy index, so a
negative label wraps to column `C + y[i]`. -/
def onehot (C : ℕ) [NeZero C] (y : Fin N → ℤ) (i : Fin N) (j : Fin C) : ℝ :=
  if j = wrapIdx C (y i) then 1 else 0

/-- The loss of `softmax_loss_vectorized`, factored over an explicit score
matrix `S`: `loss = -np.sum(np.log(exp_score) * Y) / num_train`, then
`loss += reg * np.sum(W * W)`. -/
def vecLossS [NeZero C] (W : Fin D → Fin C → ℝ) (S : Fin N → Fin C → ℝ)
    (y : Fin N → ℤ) (reg : ℝ) : ℝ :=
  -(∑ i, ∑ j, Real.log (probs S i j) * onehot C y i j) / N + regTerm reg W

/-- The gradient of `softmax_loss_vectorized`, factored over an explicit score
matrix `S`: `dW = np.dot(X.T, exp_score - Y) / num_train`, then
`dW += reg * 2 * W`. -/
def vecGradS [NeZero C] (W : Fin D → Fin C → ℝ) (X : Fin N → Fin D → ℝ)
    (S : Fin N → Fin C → ℝ) (y : Fin N → ℤ) (reg : ℝ) : Fin D → Fin C → ℝ :=
  fun d j => (∑ i, X i d * (probs S i j - onehot C y i j)) / N + reg * 2 * W d j

/-- `softmax_loss_vectorized(W, X, y, reg)`: returns the pair `(loss, dW)`. -/
def softmax_loss_vectorized [NeZero C] (W : Fin D → Fin C → ℝ) (X : Fin N → Fin D → ℝ)
    (y : Fin N → ℤ) (reg : ℝ) : ℝ × (Fin D → Fin C → ℝ) :=
  (vecLossS W (score W X) y reg, vecGradS W X (score W X) y reg)

/-- The softmax probability exactly as the spec words it: `exp(score) / sum of
exponentiated scores of the row`, with no shift by the row maximum. -/
def specSoftmax (S : Fin N → Fin C → ℝ) (i : Fin N) (j : Fin C) : ℝ :=
  Real.exp (S i j) / ∑ k, Real.exp (S i k)

theorem sum_exp_pos [NeZero C] (f : Fin C → ℝ) : 0 < ∑ k, Real.exp (f k) :=
  Finset.sum_pos (fun _ _ => Real.exp_pos _) Finset.univ_nonempty

/-- The row-maximum shift performed for numerical stability cancels exactly:
the probabilities both implementations compute are the spec's softmax. -/
theorem probs_eq_specSoftmax [NeZero C] (S : Fin N → Fin C → ℝ) (i : Fin N) (j : Fin C) :
    probs S i j = specSoftmax S i j := by
  have h : (∑ k, Real.exp (S i k)) ≠ 0 := (sum_exp_pos _).ne'
  unfold probs specSoftmax
  simp only [Real.exp_sub, ← Finset.sum_div]
  rw [div_div_div_cancel_right₀]
  exact Real.exp_ne_zero _

/-- The spec softmax is invariant under adding a per-row constant to the scores. -/
theorem specSoftmax_shift (S : Fin N → Fin C → ℝ) (c : Fin N → ℝ) (i : Fin N) (j : Fin C) :
    specSoftmax (fun i' j' => S i' j' + c i') i j = specSoftmax S i j := by
  unfold specSoftmax
  simp only [Real.exp_add, ← Finset.sum_mul]
  rw [mul_div_mul_right _ _ (Real.exp_ne_zero (c i))]

theorem probs_shift [NeZero C] (S : Fin N → Fin C → ℝ) (c : Fin N → ℝ) (i : Fin N) (j : Fin C) :
    probs (fun i' j' => S i' j' + c i') i j = probs S i j := by
  rw [probs_eq_specSoftmax, probs_eq_specSoftmax, specSoftmax_shift]

theorem wrapIdx_coe {c : ℤ} [NeZero C] (h0 : 0 ≤ c) (h1 : c < (C : ℤ)) :
    ((wrapIdx C c : Fin C) : ℤ) = c := by
  unfold wrapIdx
  simp [Int.emod_eq_of_lt h0 h1, Int.toNat_of_nonneg h0]

theorem eq_wrapIdx_iff {c : ℤ} [NeZero C] (h0 : 0 ≤ c) (h1 : c < (C : ℤ)) (j : Fin C) :
    j = wrapIdx C c ↔ (j : ℤ) = c := by
  constructor
  · rintro rfl; exact wrapIdx_coe h0 h1
  · intro h
    have hv : (j : ℤ) = ((wrapIdx C c : Fin C) : ℤ) := by rw [h, wrapIdx_coe h0 h1]
    exact Fin.ext (by exact_mod_cast hv)

/-- C1: for every weight matrix `W : (D, C)`, data matrix `X : (N, D)` with
`N ≥ 1`, label vector `y` with every `y i` in `[0, C)`, and scalar `reg`,
`softmax_loss_naive` and `softmax_loss_vectorized` return the same loss and
the same gradient matrix (exactly, in the exact real arithmetic of the model). -/
theorem softmax_naive_eq_vectorized [NeZero N] [NeZero C]
    (W : Fin D → Fin C → ℝ) (X : Fin N → Fin D → ℝ) (y : Fin N → ℤ) (reg : ℝ)
    (hy : ∀ i, 0 ≤ y i ∧ y i < (C : ℤ)) :
    softmax_loss_naive W X y reg = softmax_loss_vectorized W X y reg := by
  unfold softmax_loss_naive softmax_loss_vectorized naiveLossS vecLossS naiveGradS vecGradS
  refine Prod.ext ?_ ?_
  · have hL : ∀ i, ∑ j, Real.log (probs (score W X) i j) * onehot C y i j
        = Real.log (probs (score W X) i (wrapIdx C (y i))) := by
      intro i
      simp [onehot, mul_ite, mul_one, mul_zero, Finset.sum_ite_eq']
    simp only [hL, ← Finset.sum_neg_distrib]
  · funext d j
    have hG : ∀ i : Fin N,
        (if (j : ℤ) = y i then (probs (score W X) i j - 1) * X i d
          else probs (score W X) i j * X i d)
        = X i d * (probs (score W X) i j - onehot C y i j) := by
      intro i
      by_cases hij : (j : ℤ) = y i
      · rw [if_pos hij, onehot, if_pos ((eq_wrapIdx_iff (hy i).1 (hy i).2 j).mpr hij)]
        ring
      · rw [if_neg hij, onehot,
          if_neg (fun h => hij ((eq_wrapIdx_iff (hy i).1 (hy i).2 j).mp h))]
        ring
    simp only [hG]

/-- Witness for C1 at `N = D = C = 1`, `W = 1`, `X = 1`, `y = [0]`, `reg = 1`. -/
theorem softmax_naive_eq_vectorized_witness :
    (∀ i : Fin 1, 0 ≤ (fun _ : Fin 1 => (0 : ℤ)) i ∧ (fun _ : Fin 1 => (0 : ℤ)) i < ((1 : ℕ) : ℤ)) ∧
    softmax_loss_naive (fun _ _ : Fin 1 => (1 : ℝ)) (fun _ _ : Fin 1 => (1 : ℝ))
        (fun _ : Fin 1 => (0 : ℤ)) 1
      = softmax_loss_vectorized (fun _ _ : Fin 1 => (1 : ℝ)) (fun _ _ : Fin 1 => (1 : ℝ))
        (fun _ : Fin 1 => (0 : ℤ)) 1 :=
  ⟨by decide, softmax_naive_eq_vectorized _ _ _ _ (by decide)⟩

/-- A label vector `y` is valid when it is the coercion of a vector of class
indices `t`; this packages the bounds and the wrap-around being the identity. -/
theorem valid_label_facts [NeZero C] {y : Fin N → ℤ} {t : Fin N → Fin C}
    (ht : ∀ i, ((t i : ℕ) : ℤ) = y i) (i : Fin N) :
    0 ≤ y i ∧ y i < (C : ℤ) ∧ wrapIdx C (y i) = t i := by
  have h0 : 0 ≤ y i := by rw [← ht i]; exact Int.natCast_nonneg _
  have h1 : y i < (C : ℤ) := by rw [← ht i]; exact_mod_cast (t i).isLt
  exact ⟨h0, h1, ((eq_wrapIdx_iff h0 h1 (t i)).mpr (ht i)).symm⟩

theorem valid_label_cond [NeZero C] {y : Fin N → ℤ} {t : Fin N → Fin C}
    (ht : ∀ i, ((t i : ℕ) : ℤ) = y i) (i : Fin N) (j : Fin C) :
    ((j : ℤ) = y i) ↔ (t i = j) := by
  rw [← ht i]
  constructor
  · intro h; exact (Fin.ext (by exact_mod_cast h)).symm
  · rintro rfl; rfl

/-- C2: for every valid input, the loss returned by `softmax_loss_naive` is the
average over the `N` examples of the negative log of the softmax probability of
the true label `t i = y i`, plus `reg * Σ W²` (the regularization term is not
divided by `N`). -/
theorem softmax_loss_naive_formula [NeZero N] [NeZero C]
    (W : Fin D → Fin C → ℝ) (X : Fin N → Fin D → ℝ) (y : Fin N → ℤ) (reg : ℝ)
    (t : Fin N → Fin C) (ht : ∀ i, ((t i : ℕ) : ℤ) = y i) :
    (softmax_loss_naive W X y reg).1
      = (∑ i, -Real.log (specSoftmax (score W X) i (t i))) / N
        + reg * ∑ d, ∑ j, (W d j) ^ 2 := by
  unfold softmax_loss_naive naiveLossS regTerm
  have hw : ∀ i, wrapIdx C (y i) = t i := fun i => (valid_label_facts ht i).2.2
  simp only [hw, probs_eq_specSoftmax, pow_two]

/-- Witness for C2 at `N = D = C = 1`, `W = 1`, `X = 1`, `y = [0]`, `reg = 2`. -/
theorem softmax_loss_naive_formula_witness :
    (∀ i : Fin 1, (((fun _ : Fin 1 => (0 : Fin 1)) i : ℕ) : ℤ) = (fun _ : Fin 1 => (0 : ℤ)) i) ∧
    (softmax_loss_naive (fun _ _ : Fin 1 => (1 : ℝ)) (fun _ _ : Fin 1 => (1 : ℝ))
        (fun _ : Fin 1 => (0 : ℤ)) 2).1
      = (∑ i : Fin 1, -Real.log (specSoftmax
            (score (fun _ _ : Fin 1 => (1 : ℝ)) (fun _ _ : Fin 1 => (1 : ℝ))) i
            ((fun _ : Fin 1 => (0 : Fin 1)) i))) / (1 : ℕ)
        + 2 * ∑ d : Fin 1, ∑ j : Fin 1, ((fun _ _ : Fin 1 => (1 : ℝ)) d j) ^ 2 :=
  ⟨by decide, softmax_loss_naive_formula _ _ _ _ _ (by decide)⟩

/-- C3: for every valid input, both returned gradients satisfy, for every
dimension `d` and class `j`:
`dW d j = (Σ i, X i d * (softmax i j - [y i = j])) / N + 2 * reg * W d j`;
`dW` has the shape `(D, C)` of `W` by its type. -/
theorem softmax_grad_formula [NeZero N] [NeZero C]
    (W : Fin D → Fin C → ℝ) (X : Fin N → Fin D → ℝ) (y : Fin N → ℤ) (reg : ℝ)
    (t : Fin N → Fin C) (ht : ∀ i, ((t i : ℕ) : ℤ) = y i) :
    (∀ (d : Fin D) (j : Fin C), (softmax_loss_naive W X y reg).2 d j
        = (∑ i, X i d * (specSoftmax (score W X) i j - if t i = j then 1 else 0)) / N
          + 2 * reg * W d j)
    ∧ (∀ (d : Fin D) (j : Fin C), (softmax_loss_vectorized W X y reg).2 d j
        = (∑ i, X i d * (specSoftmax (score W X) i j - if t i = j then 1 else 0)) / N
          + 2 * reg * W d j) := by
  constructor
  · intro d j
    unfold softmax_loss_naive naiveGradS
    have h : ∀ i : Fin N,
        (if (j : ℤ) = y i then (probs (score W X) i j - 1) * X i d
          else probs (score W X) i j * X i d)
        = X i d * (specSoftmax (score W X) i j - if t i = j then 1 else 0) := by
      intro i
      rw [probs_eq_specSoftmax]
      by_cases hij : t i = j
      · rw [if_pos ((valid_label_cond ht i j).mpr hij), if_pos hij]; ring
      · rw [if_neg (fun h' => hij ((valid_label_cond ht i j).mp h')), if_neg hij]; ring
    simp only [h]
    ring
  · intro d j
    unfold softmax_loss_vectorized vecGradS
    have h : ∀ i : Fin N,
        X i d * (probs (score W X) i j - onehot C y i j)
        = X i d * (specSoftmax (score W X) i j - if t i = j then 1 else 0) := by
      intro i
      rw [probs_eq_specSoftmax]
      have hw : wrapIdx C (y i) = t i := (valid_label_facts ht i).2.2
      unfold onehot
      rw [hw]
      by_cases hij : t i = j
      · rw [if_pos hij.symm, if_pos hij]
      · rw [if_neg (fun h' => hij h'.symm), if_neg hij]
    simp only [h]
    ring

/-- Witness for C3 at `N = D = C = 1`, `W = 1`, `X = 1`, `y = [0]`, `reg = 2`. -/
theorem softmax_grad_formula_witness :
    (∀ i : Fin 1, (((fun _ : Fin 1 => (0 : Fin 1)) i : ℕ) : ℤ) = (fun _ : Fin 1 => (0 : ℤ)) i) ∧
    (softmax_loss_naive (fun _ _ : Fin 1 => (1 : ℝ)) (fun _ _ : Fin 1 => (1 : ℝ))
        (fun _ : Fin 1 => (0 : ℤ)) 2).2 0 0
      = (∑ i : Fin 1, (fun _ _ : Fin 1 => (1 : ℝ)) i 0
            * (specSoftmax (score (fun _ _ : Fin 1 => (1 : ℝ)) (fun _ _ : Fin 1 => (1 : ℝ))) i 0
              - if (fun _ : Fin 1 => (0 : Fin 1)) i = 0 then 1 else 0)) / (1 : ℕ)
        + 2 * 2 * (fun _ _ : Fin 1 => (1 : ℝ)) 0 0 :=
  ⟨by decide,
    (softmax_grad_formula (fun _ _ : Fin 1 => (1 : ℝ)) (fun _ _ : Fin 1 => (1 : ℝ))
      (fun _ : Fin 1 => (0 : ℤ)) 2 (fun _ : Fin 1 => (0 : Fin 1)) (by decide)).1 0 0⟩

/-- C4: both implementations are invariant under adding a per-row constant `c i`
to the score matrix: the loss and the gradient computed from the shifted scores
equal the ones computed from the original scores, for the naive and the
vectorized code alike (exactly, in exact arithmetic). -/
theorem softmax_loss_shift_invariant [NeZero C]
    (W : Fin D → Fin C → ℝ) (X : Fin N → Fin D → ℝ) (y : Fin N → ℤ) (reg : ℝ)
    (S : Fin N → Fin C → ℝ) (c : Fin N → ℝ) :
    naiveLossS W (fun i j => S i j + c i) y reg = naiveLossS W S y reg
    ∧ naiveGradS W X (fun i j => S i j + c i) y reg = naiveGradS W X S y reg
    ∧ vecLossS W (fun i j => S i j + c i) y reg = vecLossS W S y reg
    ∧ vecGradS W X (fun i j => S i j + c i) y reg = vecGradS W X S y reg := by
  refine ⟨?_, ?_, ?_, ?_⟩
  · unfold naiveLossS
    simp only [probs_shift]
  · funext d j
    unfold naiveGradS
    simp only [probs_shift]
  · unfold vecLossS
    simp only [probs_shift]
  · funext d j
    unfold vecGradS
    simp only [probs_shift]

/-- Witness for C4 at `N = D = C = 1`, `W = 1`, `X = 1`, `y = [0]`, `reg = 1`,
`S = 0`, `c = 5`. -/
theorem softmax_loss_shift_invariant_witness :
    naiveLossS (fun _ _ : Fin 1 => (1 : ℝ))
        (fun i j => (fun _ _ : Fin 1 => (0 : ℝ)) i j + (fun _ : Fin 1 => (5 : ℝ)) i)
        (fun _ => (0 : ℤ)) 1
      = naiveLossS (fun _ _ : Fin 1 => (1 : ℝ)) (fun _ _ : Fin 1 => (0 : ℝ))
        (fun _ => (0 : ℤ)) 1
    ∧ naiveGradS (fun _ _ : Fin 1 => (1 : ℝ)) (fun _ _ : Fin 1 => (1 : ℝ))
        (fun i j => (fun _ _ : Fin 1 => (0 : ℝ)) i j + (fun _ : Fin 1 => (5 : ℝ)) i)
        (fun _ => (0 : ℤ)) 1
      = naiveGradS (fun _ _ : Fin 1 => (1 : ℝ)) (fun _ _ : Fin 1 => (1 : ℝ))
        (fun _ _ : Fin 1 => (0 : ℝ)) (fun _ => (0 : ℤ)) 1
    ∧ vecLossS (fun _ _ : Fin 1 => (1 : ℝ))
        (fun i j => (fun _ _ : Fin 1 => (0 : ℝ)) i j + (fun _ : Fin 1 => (5 : ℝ)) i)
        (fun _ => (0 : ℤ)) 1
      = vecLossS (fun _ _ : Fin 1 => (1 : ℝ)) (fun _ _ : Fin 1 => (0 : ℝ))
        (fun _ => (0 : ℤ)) 1
    ∧ vecGradS (fun _ _ : Fin 1 => (1 : ℝ)) (fun _ _ : Fin 1 => (1 : ℝ))
        (fun i j => (fun _ _ : Fin 1 => (0 : ℝ)) i j + (fun _ : Fin 1 => (5 : ℝ)) i)
        (fun _ => (0 : ℤ)) 1
      = vecGradS (fun _ _ : Fin 1 => (1 : ℝ)) (fun _ _ : Fin 1 => (1 : ℝ))
        (fun _ _ : Fin 1 => (0 : ℝ)) (fun _ => (0 : ℤ)) 1 :=
  softmax_loss_shift_invariant _ _ _ _ _ _

/-- C5 counterexample: with `W = 0` (a valid input: `N = D = C = 1`, `X = 1`,
`y = [0]`) and `reg = 1 > 0`, the loss is NOT strictly greater than with
`reg = 0` — the regularization term `reg * Σ W²` vanishes at `W = 0`. -/
theorem softmax_loss_reg_not_strict :
    ¬ ((softmax_loss_naive (fun _ _ : Fin 1 => (0 : ℝ)) (fun _ _ : Fin 1 => (1 : ℝ))
          (fun _ : Fin 1 => (0 : ℤ)) 0).1
        < (softmax_loss_naive (fun _ _ : Fin 1 => (0 : ℝ)) (fun _ _ : Fin 1 => (1 : ℝ))
          (fun _ : Fin 1 => (0 : ℤ)) 1).1) := by
  have h : ∀ reg : ℝ, (softmax_loss_naive (fun _ _ : Fin 1 => (0 : ℝ))
      (fun _ _ : Fin 1 => (1 : ℝ)) (fun _ : Fin 1 => (0 : ℤ)) reg).1 = 0 := by
    intro reg
    unfold softmax_loss_naive naiveLossS regTerm probs rowMax score
    simp
  rw [h, h]
  exact lt_irrefl 0

/-- C5 (amended): for `reg > 0` the loss with regularization `reg` equals the
loss with `reg = 0` plus exactly `reg * Σ W²`; hence it is strictly greater
whenever `W` has a nonzero entry (at `W = 0` the two losses are equal). -/
theorem softmax_loss_reg_difference [NeZero C]
    (W : Fin D → Fin C → ℝ) (X : Fin N → Fin D → ℝ) (y : Fin N → ℤ) (reg : ℝ)
    (hreg : 0 < reg) :
    (softmax_loss_naive W X y reg).1
      = (softmax_loss_naive W X y 0).1 + reg * ∑ d, ∑ j, W d j * W d j
    ∧ (softmax_loss_vectorized W X y reg).1
      = (softmax_loss_vectorized W X y 0).1 + reg * ∑ d, ∑ j, W d j * W d j
    ∧ ((∃ d j, W d j ≠ 0) →
        (softmax_loss_naive W X y 0).1 < (softmax_loss_naive W X y reg).1
        ∧ (softmax_loss_vectorized W X y 0).1 < (softmax_loss_vectorized W X y reg).1) := by
  have h1 : (softmax_loss_naive W X y reg).1
      = (softmax_loss_naive W X y 0).1 + reg * ∑ d, ∑ j, W d j * W d j := by
    unfold softmax_loss_naive naiveLossS regTerm
    ring
  have h2 : (softmax_loss_vectorized W X y reg).1
      = (softmax_loss_vectorized W X y 0).1 + reg * ∑ d, ∑ j, W d j * W d j := by
    unfold softmax_loss_vectorized vecLossS regTerm
    ring
  refine ⟨h1, h2, ?_⟩
  rintro ⟨d, j, hdj⟩
  have hsq : 0 < ∑ d, ∑ j, W d j * W d j := by
    refine Finset.sum_pos' (fun d _ => Finset.sum_nonneg fun j _ => mul_self_nonneg _)
      ⟨d, Finset.mem_univ d, ?_⟩
    exact Finset.sum_pos' (fun j _ => mul_self_nonneg _)
      ⟨j, Finset.mem_univ j, mul_self_pos.mpr hdj⟩
  have hpos : 0 < reg * ∑ d, ∑ j, W d j * W d j := mul_pos hreg hsq
  constructor
  · rw [h1]; linarith
  · rw [h2]; linarith

/-- Witness for C5 at `N = D = C = 1`, `W = 1`, `X = 1`, `y = [0]`, `reg = 1`. -/
theorem softmax_loss_reg_difference_witness :
    (0 : ℝ) < 1 ∧
    ((softmax_loss_naive (fun _ _ : Fin 1 => (1 : ℝ)) (fun _ _ : Fin 1 => (1 : ℝ))
        (fun _ : Fin 1 => (0 : ℤ)) 1).1
      = (softmax_loss_naive (fun _ _ : Fin 1 => (1 : ℝ)) (fun _ _ : Fin 1 => (1 : ℝ))
          (fun _ : Fin 1 => (0 : ℤ)) 0).1
        + 1 * ∑ d : Fin 1, ∑ j : Fin 1, (fun _ _ : Fin 1 => (1 : ℝ)) d j
            * (fun _ _ : Fin 1 => (1 : ℝ)) d j
    ∧ (softmax_loss_vectorized (fun _ _ : Fin 1 => (1 : ℝ)) (fun _ _ : Fin 1 => (1 : ℝ))
        (fun _ : Fin 1 => (0 : ℤ)) 1).1
      = (softmax_loss_vectorized (fun _ _ : Fin 1 => (1 : ℝ)) (fun _ _ : Fin 1 => (1 : ℝ))
          (fun _ : Fin 1 => (0 : ℤ)) 0).1
        + 1 * ∑ d : Fin 1, ∑ j : Fin 1, (fun _ _ : Fin 1 => (1 : ℝ)) d j
            * (fun _ _ : Fin 1 => (1 : ℝ)) d j
    ∧ ((∃ (d : Fin 1) (j : Fin 1), (fun _ _ : Fin 1 => (1 : ℝ)) d j ≠ 0) →
        (softmax_loss_naive (fun _ _ : Fin 1 => (1 : ℝ)) (fun _ _ : Fin 1 => (1 : ℝ))
            (fun _ : Fin 1 => (0 : ℤ)) 0).1
          < (softmax_loss_naive (fun _ _ : Fin 1 => (1 : ℝ)) (fun _ _ : Fin 1 => (1 : ℝ))
            (fun _ : Fin 1 => (0 : ℤ)) 1).1
        ∧ (softmax_loss_vectorized (fun _ _ : Fin 1 => (1 : ℝ)) (fun _ _ : Fin 1 => (1 : ℝ))
            (fun _ : Fin 1 => (0 : ℤ)) 0).1
          < (softmax_loss_vectorized (fun _ _ : Fin 1 => (1 : ℝ)) (fun _ _ : Fin 1 => (1 : ℝ))
            (fun _ : Fin 1 => (0 : ℤ)) 1).1)) :=
  ⟨by norm_num, softmax_loss_reg_difference _ _ _ _ (by norm_num)⟩

/-- When all scores of row `i` are equal, every softmax probability of that row
is `1 / C`. -/
theorem probs_of_const_scores [NeZero C] {S : Fin N → Fin C → ℝ} {i : Fin N}
    (h : ∀ j k, S i j = S i k) (j : Fin C) : probs S i j = 1 / C := by
  rw [probs_eq_specSoftmax]
  unfold specSoftmax
  have hk : ∀ k : Fin C, Real.exp (S i k) = Real.exp (S i j) := fun k => by rw [h k j]
  rw [Finset.sum_congr rfl (fun k _ => hk k), Finset.sum_const, Finset.card_univ,
    Fintype.card_fin, nsmul_eq_mul]
  have hC : ((C : ℝ)) ≠ 0 := Nat.cast_ne_zero.mpr (NeZero.ne C)
  have he : Real.exp (S i j) ≠ 0 := Real.exp_ne_zero _
  field_simp
  ring

/-- When every example's score row is constant and `reg = 0`, both
implementations return loss `log C`. -/
theorem softmax_loss_of_const_scores [NeZero N] [NeZero C]
    (W : Fin D → Fin C → ℝ) (X : Fin N → Fin D → ℝ) (y : Fin N → ℤ)
    (hs : ∀ (i : Fin N) (j k : Fin C), score W X i j = score W X i k) :
    (softmax_loss_naive W X y 0).1 = Real.log C
    ∧ (softmax_loss_vectorized W X y 0).1 = Real.log C := by
  have hp : ∀ (i : Fin N) (j : Fin C), probs (score W X) i j = 1 / C :=
    fun i j => probs_of_const_scores (hs i) j
  have hN : ((N : ℝ)) ≠ 0 := Nat.cast_ne_zero.mpr (NeZero.ne N)
  have hlog : -Real.log (1 / (C : ℝ)) = Real.log C := by
    rw [one_div, Real.log_inv, neg_neg]
  constructor
  · unfold softmax_loss_naive naiveLossS regTerm
    simp only [hp, hlog, zero_mul, add_zero, Finset.sum_const, Finset.card_univ,
      Fintype.card_fin, nsmul_eq_mul]
    field_simp
  · unfold softmax_loss_vectorized vecLossS regTerm
    have hrow : ∀ i : Fin N, ∑ j, Real.log (probs (score W X) i j) * onehot C y i j
        = Real.log (1 / (C : ℝ)) := by
      intro i
      simp [hp, onehot, mul_ite, mul_one, mul_zero, Finset.sum_ite_eq']
    simp only [hrow, zero_mul, add_zero, Finset.sum_const, Finset.card_univ,
      Fintype.card_fin, nsmul_eq_mul]
    rw [← hlog]
    field_simp
    ring

/-- C7: for every valid input with `reg = 0` whose score rows are constant
across classes, both implementations return loss `log C`. -/
theorem softmax_loss_equal_scores [NeZero N] [NeZero C]
    (W : Fin D → Fin C → ℝ) (X : Fin N → Fin D → ℝ) (y : Fin N → ℤ)
    (_hy : ∀ i, 0 ≤ y i ∧ y i < (C : ℤ))
    (hs : ∀ (i : Fin N) (j k : Fin C), score W X i j = score W X i k) :
    (softmax_loss_naive W X y 0).1 = Real.log C
    ∧ (softmax_loss_vectorized W X y 0).1 = Real.log C :=
  softmax_loss_of_const_scores W X y hs

/-- Witness for C7 at `N = D = 1`, `C = 2`, `W = 0`, `X = 1`, `y = [0]`. -/
theorem softmax_loss_equal_scores_witness :
    (∀ i : Fin 1, 0 ≤ (fun _ : Fin 1 => (0 : ℤ)) i ∧ (fun _ : Fin 1 => (0 : ℤ)) i < ((2 : ℕ) : ℤ)) ∧
    (∀ (i : Fin 1) (j k : Fin 2),
      score (fun (_ : Fin 1) (_ : Fin 2) => (0 : ℝ)) (fun _ _ : Fin 1 => (1 : ℝ)) i j
        = score (fun (_ : Fin 1) (_ : Fin 2) => (0 : ℝ)) (fun _ _ : Fin 1 => (1 : ℝ)) i k) ∧
    ((softmax_loss_naive (fun (_ : Fin 1) (_ : Fin 2) => (0 : ℝ)) (fun _ _ : Fin 1 => (1 : ℝ))
        (fun _ : Fin 1 => (0 : ℤ)) 0).1 = Real.log (2 : ℕ)
    ∧ (softmax_loss_vectorized (fun (_ : Fin 1) (_ : Fin 2) => (0 : ℝ)) (fun _ _ : Fin 1 => (1 : ℝ))
        (fun _ : Fin 1 => (0 : ℤ)) 0).1 = Real.log (2 : ℕ)) :=
  ⟨by decide, by intro i j k; simp [score],
    softmax_loss_equal_scores _ _ _ (by decide) (by intro i j k; simp [score])⟩

/-- C6: for `W = zeros(D, C)`, `X = ones(1, D)`, `y = [0]`, `reg = 0` (any
`D ≥ 1`, `C ≥ 1`), both functions return loss `log C`, gradient column `0`
equal to `-(C-1)/C` times `X[0]` (all-ones), and every other gradient column
equal to `1/C` times `X[0]`. -/
theorem softmax_zero_weights (D C : ℕ) [NeZero D] [NeZero C] :
    (softmax_loss_naive (fun (_ : Fin D) (_ : Fin C) => (0 : ℝ))
        (fun (_ : Fin 1) (_ : Fin D) => (1 : ℝ)) (fun _ : Fin 1 => (0 : ℤ)) 0).1 = Real.log C
    ∧ (softmax_loss_vectorized (fun (_ : Fin D) (_ : Fin C) => (0 : ℝ))
        (fun (_ : Fin 1) (_ : Fin D) => (1 : ℝ)) (fun _ : Fin 1 => (0 : ℤ)) 0).1 = Real.log C
    ∧ (∀ d : Fin D, (softmax_loss_naive (fun (_ : Fin D) (_ : Fin C) => (0 : ℝ))
        (fun (_ : Fin 1) (_ : Fin D) => (1 : ℝ)) (fun _ : Fin 1 => (0 : ℤ)) 0).2 d 0
          = -(((C : ℝ) - 1) / C) * 1)
    ∧ (∀ (d : Fin D) (j : Fin C), j ≠ 0 →
        (softmax_loss_naive (fun (_ : Fin D) (_ : Fin C) => (0 : ℝ))
          (fun (_ : Fin 1) (_ : Fin D) => (1 : ℝ)) (fun _ : Fin 1 => (0 : ℤ)) 0).2 d j
          = (1 / (C : ℝ)) * 1)
    ∧ (∀ d : Fin D, (softmax_loss_vectorized (fun (_ : Fin D) (_ : Fin C) => (0 : ℝ))
        (fun (_ : Fin 1) (_ : Fin D) => (1 : ℝ)) (fun _ : Fin 1 => (0 : ℤ)) 0).2 d 0
          = -(((C : ℝ) - 1) / C) * 1)
    ∧ (∀ (d : Fin D) (j : Fin C), j ≠ 0 →
        (softmax_loss_vectorized (fun (_ : Fin D) (_ : Fin C) => (0 : ℝ))
          (fun (_ : Fin 1) (_ : Fin D) => (1 : ℝ)) (fun _ : Fin 1 => (0 : ℤ)) 0).2 d j
          = (1 / (C : ℝ)) * 1) := by
  have hC : ((C : ℝ)) ≠ 0 := Nat.cast_ne_zero.mpr (NeZero.ne C)
  have hs : ∀ (i : Fin 1) (j k : Fin C),
      score (fun (_ : Fin D) (_ : Fin C) => (0 : ℝ)) (fun (_ : Fin 1) (_ : Fin D) => (1 : ℝ)) i j
        = score (fun (_ : Fin D) (_ : Fin C) => (0 : ℝ))
            (fun (_ : Fin 1) (_ : Fin D) => (1 : ℝ)) i k := by
    intro i j k; simp [score]
  have hp : ∀ (i : Fin 1) (j : Fin C),
      probs (score (fun (_ : Fin D) (_ : Fin C) => (0 : ℝ))
        (fun (_ : Fin 1) (_ : Fin D) => (1 : ℝ))) i j = 1 / C :=
    fun i j => probs_of_const_scores (hs i) j
  have hloss := softmax_loss_of_const_scores (fun (_ : Fin D) (_ : Fin C) => (0 : ℝ))
    (fun (_ : Fin 1) (_ : Fin D) => (1 : ℝ)) (fun _ : Fin 1 => (0 : ℤ)) hs
  have hzero : ((0 : Fin C) : ℤ) = 0 := by simp [Fin.val_zero']
  have hwrap : wrapIdx C (0 : ℤ) = 0 := by
    refine Fin.ext ?_
    unfold wrapIdx
    simp [Fin.val_zero']
  have hne : ∀ j : Fin C, j ≠ 0 → ¬ ((j : ℤ) = 0) := by
    intro j hj h
    apply hj
    have hv : (j : ℕ) = 0 := by exact_mod_cast h
    exact Fin.ext (by simp [hv, Fin.val_zero'])
  refine ⟨hloss.1, hloss.2, ?_, ?_, ?_, ?_⟩
  · intro d
    simp [softmax_loss_naive, naiveGradS, Fin.sum_univ_one, hp, hzero]
    field_simp
  · intro d j hj
    simp [softmax_loss_naive, naiveGradS, Fin.sum_univ_one, hp, eq_false (hne j hj)]
  · intro d
    simp [softmax_loss_vectorized, vecGradS, Fin.sum_univ_one, hp, onehot, hwrap]
    field_simp
  · intro d j hj
    simp [softmax_loss_vectorized, vecGradS, Fin.sum_univ_one, hp, onehot, hwrap,
      eq_false hj]

/-- Witness for C6 at `D = 1`, `C = 2`. -/
theorem softmax_zero_weights_witness :
    (softmax_loss_naive (fun (_ : Fin 1) (_ : Fin 2) => (0 : ℝ))
        (fun (_ : Fin 1) (_ : Fin 1) => (1 : ℝ)) (fun _ : Fin 1 => (0 : ℤ)) 0).1
      = Real.log (2 : ℕ)
    ∧ (softmax_loss_vectorized (fun (_ : Fin 1) (_ : Fin 2) => (0 : ℝ))
        (fun (_ : Fin 1) (_ : Fin 1) => (1 : ℝ)) (fun _ : Fin 1 => (0 : ℤ)) 0).1
      = Real.log (2 : ℕ)
    ∧ (∀ d : Fin 1, (softmax_loss_naive (fun (_ : Fin 1) (_ : Fin 2) => (0 : ℝ))
        (fun (_ : Fin 1) (_ : Fin 1) => (1 : ℝ)) (fun _ : Fin 1 => (0 : ℤ)) 0).2 d 0
          = -((((2 : ℕ) : ℝ) - 1) / ((2 : ℕ) : ℝ)) * 1)
    ∧ (∀ (d : Fin 1) (j : Fin 2), j ≠ 0 →
        (softmax_loss_naive (fun (_ : Fin 1) (_ : Fin 2) => (0 : ℝ))
          (fun (_ : Fin 1) (_ : Fin 1) => (1 : ℝ)) (fun _ : Fin 1 => (0 : ℤ)) 0).2 d j
          = (1 / ((2 : ℕ) : ℝ)) * 1)
    ∧ (∀ d : Fin 1, (softmax_loss_vectorized (fun (_ : Fin 1) (_ : Fin 2) => (0 : ℝ))
        (fun (_ : Fin 1) (_ : Fin 1) => (1 : ℝ)) (fun _ : Fin 1 => (0 : ℤ)) 0).2 d 0
          = -((((2 : ℕ) : ℝ) - 1) / ((2 : ℕ) : ℝ)) * 1)
    ∧ (∀ (d : Fin 1) (j : Fin 2), j ≠ 0 →
        (softmax_loss_vectorized (fun (_ : Fin 1) (_ : Fin 2) => (0 : ℝ))
          (fun (_ : Fin 1) (_ : Fin 1) => (1 : ℝ)) (fun _ : Fin 1 => (0 : ℤ)) 0).2 d j
          = (1 / ((2 : ℕ) : ℝ)) * 1) :=
  softmax_zero_weights 1 2

/-- Python division of a float by the integer `num_train`: raises
`ZeroDivisionError` when the divisor is `0` (NumPy scalar division instead
yields NaN with a warning); either way the result is undefined, modelled as
`none`. -/
def pydiv (a : ℝ) (n : ℕ) : Option ℝ :=
  if n = 0 then none else some (a / n)

/-- `softmax_loss_naive` with the division `loss /= num_train` (the first
operation that touches `num_train = 0`) made explicit as a fallible
operation. -/
def softmax_loss_naive_checked [NeZero C] (W : Fin D → Fin C → ℝ) (X : Fin N → Fin D → ℝ)
    (y : Fin N → ℤ) (reg : ℝ) : Option (ℝ × (Fin D → Fin C → ℝ)) :=
  (pydiv (∑ i, -Real.log (probs (score W X) i (wrapIdx C (y i)))) N).map
    (fun l => (l + regTerm reg W, naiveGradS W X (score W X) y reg))

/-- `softmax_loss_vectorized` with the division
`loss = -np.sum(np.log(exp_score) * Y) / num_train` made explicit as a
fallible operation. -/
def softmax_loss_vectorized_checked [NeZero C] (W : Fin D → Fin C → ℝ) (X : Fin N → Fin D → ℝ)
    (y : Fin N → ℤ) (reg : ℝ) : Option (ℝ × (Fin D → Fin C → ℝ)) :=
  (pydiv (-(∑ i, ∑ j, Real.log (probs (score W X) i j) * onehot C y i j)) N).map
    (fun l => (l + regTerm reg W, vecGradS W X (score W X) y reg))

/-- C9: both functions divide by `num_train = N` without a guard, so `N ≥ 1`
is a necessary precondition: under `0 < N` the division succeeds and the
checked computation returns exactly the unchecked `(loss, dW)`, while at
`N = 0` both computations hit the division by zero and the result is
undefined. -/
theorem softmax_division_guard [NeZero C] (W : Fin D → Fin C → ℝ)
    (X : Fin N → Fin D → ℝ) (y : Fin N → ℤ) (reg : ℝ) (hN : 0 < N) :
    (softmax_loss_naive_checked W X y reg = some (softmax_loss_naive W X y reg)
      ∧ softmax_loss_vectorized_checked W X y reg = some (softmax_loss_vectorized W X y reg))
    ∧ (∀ (X₀ : Fin 0 → Fin D → ℝ) (y₀ : Fin 0 → ℤ) (reg₀ : ℝ),
        softmax_loss_naive_checked W X₀ y₀ reg₀ = none
        ∧ softmax_loss_vectorized_checked W X₀ y₀ reg₀ = none) := by
  constructor
  · constructor
    · unfold softmax_loss_naive_checked pydiv softmax_loss_naive naiveLossS
      rw [if_neg hN.ne']
      rfl
    · unfold softmax_loss_vectorized_checked pydiv softmax_loss_vectorized vecLossS
      rw [if_neg hN.ne']
      rfl
  · intro X₀ y₀ reg₀
    constructor
    · unfold softmax_loss_naive_checked pydiv
      rfl
    · unfold softmax_loss_vectorized_checked pydiv
      rfl

/-- Witness for C9 at `N = D = C = 1`, `W = 1`, `X = 1`, `y = [0]`, `reg = 1`. -/
theorem softmax_division_guard_witness :
    0 < 1 ∧
    (softmax_loss_naive_checked (fun _ _ : Fin 1 => (1 : ℝ)) (fun _ _ : Fin 1 => (1 : ℝ))
        (fun _ : Fin 1 => (0 : ℤ)) 1
      = some (softmax_loss_naive (fun _ _ : Fin 1 => (1 : ℝ)) (fun _ _ : Fin 1 => (1 : ℝ))
        (fun _ : Fin 1 => (0 : ℤ)) 1)
    ∧ softmax_loss_vectorized_checked (fun _ _ : Fin 1 => (1 : ℝ)) (fun _ _ : Fin 1 => (1 : ℝ))
        (fun _ : Fin 1 => (0 : ℤ)) 1
      = some (softmax_loss_vectorized (fun _ _ : Fin 1 => (1 : ℝ)) (fun _ _ : Fin 1 => (1 : ℝ))
        (fun _ : Fin 1 => (0 : ℤ)) 1)) ∧
    (∀ (X₀ : Fin 0 → Fin 1 → ℝ) (y₀ : Fin 0 → ℤ) (reg₀ : ℝ),
        softmax_loss_naive_checked (fun _ _ : Fin 1 => (1 : ℝ)) X₀ y₀ reg₀ = none
        ∧ softmax_loss_vectorized_checked (fun _ _ : Fin 1 => (1 : ℝ)) X₀ y₀ reg₀ = none) :=
  ⟨by decide,
    (softmax_division_guard _ _ _ _ (by decide)).1,
    (softmax_division_guard (fun _ _ : Fin 1 => (1 : ℝ)) (fun _ _ : Fin 1 => (1 : ℝ))
      (fun _ : Fin 1 => (0 : ℤ)) 1 (by decide)).2⟩

/-- C10: the equivalence of the two implementations needs the label bounds
`0 ≤ y i < C`.  At `N = D = 1`, `C = 2`, `W = 0`, `X = 1`, `reg = 0` and the
negative label `y = [-1]`, the naive loop's comparison `j == y[i]` never fires
while the vectorized one-hot assignment wraps to column `C + y[i] = 1`, so the
two returned gradients differ at entry `(0, 1)`: `1/2` versus `-1/2`. -/
theorem negative_label_gradients_differ :
    (softmax_loss_naive (fun (_ : Fin 1) (_ : Fin 2) => (0 : ℝ))
        (fun (_ : Fin 1) (_ : Fin 1) => (1 : ℝ)) (fun _ : Fin 1 => (-1 : ℤ)) 0).2 0 1
      ≠ (softmax_loss_vectorized (fun (_ : Fin 1) (_ : Fin 2) => (0 : ℝ))
        (fun (_ : Fin 1) (_ : Fin 1) => (1 : ℝ)) (fun _ : Fin 1 => (-1 : ℤ)) 0).2 0 1 := by
  have hs : ∀ (i : Fin 1) (j k : Fin 2),
      score (fun (_ : Fin 1) (_ : Fin 2) => (0 : ℝ)) (fun (_ : Fin 1) (_ : Fin 1) => (1 : ℝ)) i j
        = score (fun (_ : Fin 1) (_ : Fin 2) => (0 : ℝ))
            (fun (_ : Fin 1) (_ : Fin 1) => (1 : ℝ)) i k := by
    intro i j k; simp [score]
  have hp : ∀ (i : Fin 1) (j : Fin 2),
      probs (score (fun (_ : Fin 1) (_ : Fin 2) => (0 : ℝ))
        (fun (_ : Fin 1) (_ : Fin 1) => (1 : ℝ))) i j = 1 / ((2 : ℕ) : ℝ) :=
    fun i j => probs_of_const_scores (hs i) j
  have hcond : ¬ (((1 : Fin 2) : ℤ) = (-1 : ℤ)) := by decide
  have hwrap : wrapIdx 2 (-1 : ℤ) = 1 := by decide
  have hna : (softmax_loss_naive (fun (_ : Fin 1) (_ : Fin 2) => (0 : ℝ))
      (fun (_ : Fin 1) (_ : Fin 1) => (1 : ℝ)) (fun _ : Fin 1 => (-1 : ℤ)) 0).2 0 1
      = 1 / 2 := by
    simp [softmax_loss_naive, naiveGradS, Fin.sum_univ_one, hp, hcond]
  have hve : (softmax_loss_vectorized (fun (_ : Fin 1) (_ : Fin 2) => (0 : ℝ))
      (fun (_ : Fin 1) (_ : Fin 1) => (1 : ℝ)) (fun _ : Fin 1 => (-1 : ℤ)) 0).2 0 1
      = 1 / 2 - 1 := by
    simp [softmax_loss_vectorized, vecGradS, Fin.sum_univ_one, hp, onehot, hwrap]
  rw [hna, hve]
  norm_num

end Softmax

end
